import Mathlib

/-!
Verification of the tabular analysis engine of the Data-Analysis-Tool
dashboard (src/app.py). The engine operates on an in-memory table whose
cells are numeric, text, or missing; numeric values are modelled as
rationals, and floating-point NaN propagation is modelled by Option
(none stands for the NaN-equivalent undefined value).
-/

namespace DataTool

/-- A single cell of the table: missing (NaN), a numeric value, or text. -/
inductive Cell where
  | missing : Cell
  | num : ℚ → Cell
  | str : String → Cell
deriving DecidableEq

/-- A named column: an ordered sequence of cells. -/
structure Column where
  name : String
  cells : List Cell
deriving DecidableEq

/-- A table: an ordered sequence of named columns. -/
structure Table where
  cols : List Column
deriving DecidableEq

/-- The numeric value held by a cell, if any. -/
def Cell.numVal : Cell → Option ℚ
  | Cell.num q => some q
  | _ => none

/-- Whether a cell is missing (NaN / null). -/
def Cell.isMissing : Cell → Bool
  | Cell.missing => true
  | _ => false

/-- A column is numeric when no cell holds text: this mirrors the dtype
inference behind select_dtypes(include="number") in src/app.py, where a
column whose non-missing values are all numbers gets a numeric dtype. -/
def Column.isNumeric (c : Column) : Bool :=
  c.cells.all fun x =>
    match x with
    | Cell.str _ => false
    | _ => true

/-- The non-missing numeric values of a column, in row order. -/
def Column.vals (c : Column) : List ℚ :=
  c.cells.filterMap Cell.numVal

/-- Column lookup by name. -/
def Table.col (t : Table) (name : String) : Option Column :=
  t.cols.find? fun c => c.name == name

/-- Row count of the table (df.shape[0]). -/
def Table.nrows (t : Table) : ℕ :=
  match t.cols with
  | [] => 0
  | c :: _ => c.cells.length

/-- The numeric columns of the table (select_dtypes(include="number")). -/
def Table.numericCols (t : Table) : List Column :=
  t.cols.filter Column.isNumeric

/-- Row selection by index list: df[mask] keeps, in each column, the cells
at the selected row positions, in order. -/
def Table.filterRows (t : Table) (keep : List ℕ) : Table :=
  ⟨t.cols.map fun c => ⟨c.name, keep.map fun i => c.cells.getD i Cell.missing⟩⟩

/-- Linear-interpolation quantile of a list of rationals, as computed by
Series.quantile in src/app.py lines 126-127: sort the values, take the
virtual position q*(n-1), and interpolate linearly between the two
neighbouring order statistics. An empty list yields the undefined value
(pandas returns NaN there). -/
def quantile (xs : List ℚ) (q : ℚ) : Option ℚ :=
  let s := List.insertionSort (fun a b => a ≤ b) xs
  match s with
  | [] => none
  | _ :: _ =>
    let n := s.length
    let pos : ℚ := q * ((n : ℚ) - 1)
    let i : ℕ := (Int.floor pos).toNat
    let lo := s.getD i 0
    let hi := s.getD (i + 1) lo
    some (lo + (pos - (i : ℚ)) * (hi - lo))

/-- The IQR fences of src/app.py lines 126-131: Q1 and Q3 of the
non-missing values, lower = Q1 - 1.5*IQR, upper = Q3 + 1.5*IQR. When the
quantiles are undefined (no non-missing value) both fences are the
undefined NaN-equivalent. -/
def iqrBounds (vals : List ℚ) : Option ℚ × Option ℚ :=
  match quantile vals (1/4), quantile vals (3/4) with
  | some q1, some q3 => (some (q1 - 3/2 * (q3 - q1)), some (q3 + 3/2 * (q3 - q1)))
  | _, _ => (none, none)

/-- The boolean row mask (df[col] < lower) | (df[col] > upper) of
src/app.py line 133. A comparison against a missing value or an undefined
fence is false, exactly as every comparison with NaN is false. -/
def outlierTest (lower upper : Option ℚ) (x : Cell) : Bool :=
  match x, lower, upper with
  | Cell.num v, some lo, some hi => decide (v < lo) || decide (hi < v)
  | _, _, _ => false

/-- The row indices selected by the outlier mask, in row order. -/
def outlierKeep (c : Column) (lower upper : Option ℚ) : List ℕ :=
  (List.range c.cells.length).filter fun i =>
    outlierTest lower upper (c.cells.getD i Cell.missing)

/-- Errors of the engine operations (spec section 7). -/
inductive AnalysisError where
  | columnNotFound
  | invalidColumnKind
deriving DecidableEq

/-- The result of outlier detection: the two fences, the sub-table of
outlier rows (all columns retained, row order preserved), and its row
count (src/app.py lines 133-135). -/
structure OutlierReport where
  lower : Option ℚ
  upper : Option ℚ
  outliers : Table
  count : ℕ
deriving DecidableEq

/-- Outlier detection, src/app.py lines 123-135: Q1/Q3 by linear
interpolation over the non-missing values, fences at 1.5*IQR, and the
strict mask (value < lower) | (value > upper) selecting the outlier rows.
Modelled from the spec: the page offers only numeric columns in its
selectbox (line 123-124), so asking for a non-numeric column is refused;
spec section 4.3 names that refusal InvalidColumnKind, and a missing
column name ColumnNotFound. -/
def detect (t : Table) (name : String) : Except AnalysisError OutlierReport :=
  match t.col name with
  | none => Except.error AnalysisError.columnNotFound
  | some c =>
    if c.isNumeric then
      let b := iqrBounds c.vals
      let keep := outlierKeep c b.1 b.2
      Except.ok ⟨b.1, b.2, t.filterRows keep, keep.length⟩
    else Except.error AnalysisError.invalidColumnKind

/-! ## Trend Detection (src/app.py lines 159-175) -/

/-- The trend verdict rendered by the Trend Detection page. -/
inductive TrendVerdict where
  | increasing
  | decreasing
  | flat
deriving DecidableEq

/-- Consecutive differences of a cell sequence in row order, as produced
by Series.diff() without its leading NaN entry: the difference at a
position is defined only when both neighbouring values are numeric,
otherwise it is the undefined NaN-equivalent. -/
def diffs : List Cell → List (Option ℚ)
  | [] => []
  | [_] => []
  | a :: b :: rest =>
    (match a.numVal, b.numVal with
     | some x, some y => some (y - x)
     | _, _ => none) :: diffs (b :: rest)

/-- The defined (non-NaN) consecutive differences, in order. -/
def definedDiffs (cells : List Cell) : List ℚ :=
  (diffs cells).filterMap id

/-- Mean of a list of rationals; the empty list yields the undefined
NaN-equivalent, exactly as Series.mean() with skipna returns NaN when no
value remains. -/
def listMean (xs : List ℚ) : Option ℚ :=
  match xs with
  | [] => none
  | _ :: _ => some (xs.sum / (xs.length : ℚ))

/-- The classification of src/app.py lines 168-175: the mean of the
consecutive differences is compared with 0; a NaN mean fails both
comparisons, so the page falls through to the flat verdict. -/
def trendOfCells (cells : List Cell) : TrendVerdict :=
  match listMean (definedDiffs cells) with
  | none => TrendVerdict.flat
  | some m =>
    if 0 < m then TrendVerdict.increasing
    else if m < 0 then TrendVerdict.decreasing
    else TrendVerdict.flat

/-- Trend analysis of a named column, src/app.py lines 162-175.
Modelled from the spec: the page offers only numeric columns in its
selectbox (line 162-163); spec section 4.5 with section 7 names the
refusal of a non-numeric column InvalidColumnKind. -/
def analyzeTrend (t : Table) (name : String) : Except AnalysisError TrendVerdict :=
  match t.col name with
  | none => Except.error AnalysisError.columnNotFound
  | some c =>
    if c.isNumeric then Except.ok (trendOfCells c.cells)
    else Except.error AnalysisError.invalidColumnKind

/-! ## Clean and Export (src/app.py lines 180-208) -/

/-- The five cleaning strategies offered by the Clean and Export page. -/
inductive CleaningStrategy where
  | dropRowsWithNulls
  | dropColumnsWithNulls
  | fillWithMean
  | fillWithMedian
  | fillWithZero
deriving DecidableEq

/-- Whether a column contains a missing value. -/
def Column.hasNull (c : Column) : Bool :=
  c.cells.any Cell.isMissing

/-- Whether row i contains a missing value in any column. -/
def Table.rowHasNull (t : Table) (i : ℕ) : Bool :=
  t.cols.any fun c => (c.cells.getD i Cell.missing).isMissing

/-- df.dropna(): keep exactly the rows without any missing value,
in their original order (src/app.py line 194). -/
def dropRows (t : Table) : Table :=
  t.filterRows ((List.range t.nrows).filter fun i => !t.rowHasNull i)

/-- df.dropna(axis=1): keep exactly the columns without any missing
value, in their original order (src/app.py line 196). -/
def dropCols (t : Table) : Table :=
  ⟨t.cols.filter fun c => !c.hasNull⟩

/-- Replace the missing cells of a column by the given fill value; when
the fill value is itself undefined (NaN), missing cells stay missing,
as fillna with a NaN fill value changes nothing. -/
def fillColumnWith (m : Option ℚ) (c : Column) : Column :=
  ⟨c.name, c.cells.map fun x =>
    match x, m with
    | Cell.missing, some v => Cell.num v
    | _, _ => x⟩

/-- df.fillna(df.mean()) (src/app.py line 198): each numeric column has
its missing values replaced by the column mean over the non-missing
values; non-numeric columns receive no fill value and are untouched. -/
def fillMeanTable (t : Table) : Table :=
  ⟨t.cols.map fun c =>
    if c.isNumeric then fillColumnWith (listMean c.vals) c else c⟩

/-- df.fillna(df.median()) (src/app.py line 200): as fillMeanTable with
the median, the linear-interpolation quantile at 1/2. -/
def fillMedianTable (t : Table) : Table :=
  ⟨t.cols.map fun c =>
    if c.isNumeric then fillColumnWith (quantile c.vals (1/2)) c else c⟩

/-- df.fillna(0) (src/app.py line 202): every missing cell of every
column becomes the value 0. -/
def fillZeroTable (t : Table) : Table :=
  ⟨t.cols.map fun c =>
    ⟨c.name, c.cells.map fun x =>
      match x with
      | Cell.missing => Cell.num 0
      | _ => x⟩⟩

/-- Strategy dispatch of src/app.py lines 193-202. -/
def clean (t : Table) (s : CleaningStrategy) : Table :=
  match s with
  | CleaningStrategy.dropRowsWithNulls => dropRows t
  | CleaningStrategy.dropColumnsWithNulls => dropCols t
  | CleaningStrategy.fillWithMean => fillMeanTable t
  | CleaningStrategy.fillWithMedian => fillMedianTable t
  | CleaningStrategy.fillWithZero => fillZeroTable t

/-- The Clean and Export page, src/app.py lines 190-202: the loaded
table df is kept as the session state while df_clean is computed from a
copy; the pair collects the table the session retains and the cleaned
result handed to the renderer and the CSV download. -/
def applyCleaningPage (t : Table) (s : CleaningStrategy) : Table × Table :=
  (t, clean t s)

/-! ## Correlation Explorer (src/app.py lines 146-154) -/

/-- The rows where both columns hold a numeric value, as the pairwise
complete observations used by DataFrame.corr(). -/
def pairedVals (as bs : List Cell) : List (ℚ × ℚ) :=
  (as.zip bs).filterMap fun p =>
    match p.1.numVal, p.2.numVal with
    | some x, some y => some (x, y)
    | _, _ => none

/-- Pearson correlation of two columns over their pairwise complete
observations, as computed by num_cols.corr() at src/app.py line 150.
With no complete pair, or a zero pairwise variance on either side, the
float computation divides by zero and the entry is the undefined
NaN-equivalent; otherwise it is the usual centred ratio. -/
noncomputable def corrPair (ca cb : Column) : Option ℝ :=
  let ps := pairedVals ca.cells cb.cells
  if ps = [] then none
  else
    let n : ℚ := (ps.length : ℚ)
    let mx := (ps.map Prod.fst).sum / n
    let my := (ps.map Prod.snd).sum / n
    let sxx : ℚ := (ps.map fun p => (p.1 - mx) ^ 2).sum
    let syy : ℚ := (ps.map fun p => (p.2 - my) ^ 2).sum
    let sxy : ℚ := (ps.map fun p => (p.1 - mx) * (p.2 - my)).sum
    if sxx = 0 ∨ syy = 0 then none
    else some ((sxy : ℝ) / (Real.sqrt (sxx : ℝ) * Real.sqrt (syy : ℝ)))

/-- The full correlation matrix over the numeric columns, row and column
order following the table's column order. -/
noncomputable def corrMatrix (t : Table) : List (List (Option ℝ)) :=
  t.numericCols.map fun ca => t.numericCols.map fun cb => corrPair ca cb

/-! ## Concrete tables of the specified scenarios -/

/-- The constant column y = [1, 1, 1, 1] of the degenerate scenario. -/
def exConstCol : Column := ⟨"y", [Cell.num 1, Cell.num 1, Cell.num 1, Cell.num 1]⟩

/-- One-column table holding the constant column y. -/
def exConstTable : Table := ⟨[exConstCol]⟩

/-- The column x = [1, 2, 3, 4, 100] of the outlier scenario. -/
def exXCol : Column := ⟨"x", [Cell.num 1, Cell.num 2, Cell.num 3, Cell.num 4, Cell.num 100]⟩

/-- One-column table holding x. -/
def exXTable : Table := ⟨[exXCol]⟩

/-- The column z = [5, 3, 1] of the trend scenario. -/
def exZCol : Column := ⟨"z", [Cell.num 5, Cell.num 3, Cell.num 1]⟩

/-- One-column table holding z. -/
def exZTable : Table := ⟨[exZCol]⟩

/-- The numeric column a = [2, missing, 4] of the fill-with-mean
scenario. -/
def exGapCol : Column := ⟨"a", [Cell.num 2, Cell.missing, Cell.num 4]⟩

/-- A categorical column alongside it, with its own missing value. -/
def exCatCol : Column := ⟨"c", [Cell.str "u", Cell.missing, Cell.str "v"]⟩

/-- Two-column table of the fill-with-mean scenario. -/
def exMixTable : Table := ⟨[exGapCol, exCatCol]⟩

/-- A constant numeric column with a missing entry, for the
zero-variance correlation scenario. -/
def exKCol : Column := ⟨"k", [Cell.num 2, Cell.num 2, Cell.missing]⟩

/-- A non-constant numeric column next to it. -/
def exMCol : Column := ⟨"m", [Cell.num 1, Cell.num 7, Cell.num 4]⟩

/-- Two-column table of the zero-variance correlation scenario. -/
def exCorrTable : Table := ⟨[exKCol, exMCol]⟩

/-- The column w = [1, 5, 2, 9] used to witness the telescoping trend
theorem: not monotone, yet classified by its endpoints alone. -/
def exWCol : Column := ⟨"w", [Cell.num 1, Cell.num 5, Cell.num 2, Cell.num 9]⟩

/-- One-column table holding w. -/
def exWTable : Table := ⟨[exWCol]⟩

/-- The column b = [1, 2, 3, 4, 100, missing]: the outlier scenario with
a trailing missing value, used to witness the membership theorem. -/
def exMissCol : Column :=
  ⟨"b", [Cell.num 1, Cell.num 2, Cell.num 3, Cell.num 4, Cell.num 100, Cell.missing]⟩

/-- One-column table holding b. -/
def exMissTable : Table := ⟨[exMissCol]⟩

/-! ## Theorems -/

/-- C1: for a numeric column whose quartiles coincide (IQR = 0, as in a
constant column), the fences satisfy lower = upper = Q1 and the strict
outlier mask flags exactly the values different from Q1; consequently
the column y = [1, 1, 1, 1] yields lower = upper = 1, an empty outlier
subset and count 0. -/
theorem outlier_iqr_zero_degenerate :
    (∀ (t : Table) (name : String) (c : Column) (r : OutlierReport) (q : ℚ),
        t.col name = some c →
        detect t name = Except.ok r →
        quantile c.vals (1/4) = some q →
        quantile c.vals (3/4) = some q →
        r.lower = some q ∧ r.upper = some q ∧
          ∀ v : ℚ, outlierTest r.lower r.upper (Cell.num v) = true ↔ v ≠ q) ∧
    detect exConstTable "y" = Except.ok ⟨some 1, some 1, ⟨[⟨"y", []⟩]⟩, 0⟩ := by
  constructor
  · intro t name c r q hcol hdet h1 h3
    have hb : iqrBounds c.vals = (some q, some q) := by
      rw [iqrBounds, h1, h3]; norm_num
    simp only [detect, hcol, hb] at hdet
    by_cases hnum : c.isNumeric
    · simp only [hnum, if_true, Except.ok.injEq] at hdet
      subst hdet
      refine ⟨rfl, rfl, ?_⟩
      intro v
      simp [outlierTest, lt_or_lt_iff_ne]
    · simp [hnum] at hdet
  · have h1 : quantile [1, 1, 1, 1] (1/4) = some 1 := by
      norm_num [quantile, List.insertionSort, List.orderedInsert,
        List.getD, List.getElem?_cons_succ, List.getElem?_cons_zero]
      try simp only [Int.reduceToNat]
      try norm_num
    have h3 : quantile [1, 1, 1, 1] (3/4) = some 1 := by
      norm_num [quantile, List.insertionSort, List.orderedInsert,
        List.getD, List.getElem?_cons_succ, List.getElem?_cons_zero]
      try simp only [Int.reduceToNat]
      try norm_num
    have hb : iqrBounds [1, 1, 1, 1] = (some 1, some 1) := by
      rw [iqrBounds, h1, h3]; norm_num
    norm_num [detect, Table.col, exConstTable, exConstCol, List.find?, Column.isNumeric, hb,
      Column.vals, Cell.numVal, List.filterMap_cons, List.filterMap_nil,
      outlierKeep, outlierTest, Table.filterRows, List.range_succ,
      List.getD, List.getElem?_cons_succ, List.getElem?_cons_zero]

/-- Witness for C1 at the constant column y = [1, 1, 1, 1]: a value
different from the common quartile is flagged by the mask, the common
value itself is not. -/
theorem outlier_iqr_zero_degenerate_witness :
    outlierTest (some 1) (some 1) (Cell.num 3) = true ∧
    outlierTest (some 1) (some 1) (Cell.num 1) = false := by
  have h := outlier_iqr_zero_degenerate.1 exConstTable "y" exConstCol
    ⟨some 1, some 1, ⟨[⟨"y", []⟩]⟩, 0⟩ 1 rfl outlier_iqr_zero_degenerate.2
    (by norm_num [quantile, exConstCol, Column.vals, Cell.numVal,
        List.filterMap_cons, List.filterMap_nil, List.insertionSort, List.orderedInsert,
        List.getD, List.getElem?_cons_succ, List.getElem?_cons_zero])
    (by norm_num [quantile, exConstCol, Column.vals, Cell.numVal,
          List.filterMap_cons, List.filterMap_nil, List.insertionSort, List.orderedInsert,
          List.getD, List.getElem?_cons_succ, List.getElem?_cons_zero]
        (try simp only [Int.reduceToNat])
        (try norm_num))
  refine ⟨(h.2.2 3).mpr (by norm_num), ?_⟩
  have h1 := h.2.2 1
  simp only [ne_eq, not_true_eq_false, iff_false, Bool.not_eq_true] at h1
  exact h1

/-- C2: on the column x = [1, 2, 3, 4, 100], the linear-interpolation
quartiles are Q1 = 2 and Q3 = 4, the fences are lower = -1 and
upper = 7, and detection reports exactly the one row holding 100. -/
theorem outlier_example_row :
    quantile exXCol.vals (1/4) = some 2 ∧
    quantile exXCol.vals (3/4) = some 4 ∧
    detect exXTable "x" = Except.ok ⟨some (-1), some 7, ⟨[⟨"x", [Cell.num 100]⟩]⟩, 1⟩ := by
  have h1 : quantile [1, 2, 3, 4, 100] (1/4) = some 2 := by
    norm_num [quantile, List.insertionSort, List.orderedInsert,
      List.getD, List.getElem?_cons_succ, List.getElem?_cons_zero]
    try simp only [Int.reduceToNat]
    try norm_num
  have h3 : quantile [1, 2, 3, 4, 100] (3/4) = some 4 := by
    norm_num [quantile, List.insertionSort, List.orderedInsert,
      List.getD, List.getElem?_cons_succ, List.getElem?_cons_zero]
    try simp only [Int.reduceToNat]
    try norm_num
  have hv : exXCol.vals = [1, 2, 3, 4, 100] := by
    norm_num [exXCol, Column.vals, Cell.numVal, List.filterMap_cons, List.filterMap_nil]
  have hb : iqrBounds [1, 2, 3, 4, 100] = (some (-1), some 7) := by
    rw [iqrBounds, h1, h3]; norm_num
  refine ⟨by rw [hv]; exact h1, by rw [hv]; exact h3, ?_⟩
  norm_num [detect, Table.col, exXTable, exXCol, List.find?, Column.isNumeric, hb,
    Column.vals, Cell.numVal, List.filterMap_cons, List.filterMap_nil,
    outlierKeep, outlierTest, Table.filterRows, List.range_succ,
    List.getD, List.getElem?_cons_succ, List.getElem?_cons_zero]

/-- The strict outlier mask holds exactly on numeric cells strictly
outside the fences. -/
theorem outlierTest_iff (lo hi : ℚ) (x : Cell) :
    outlierTest (some lo) (some hi) x = true ↔
      ∃ v : ℚ, x = Cell.num v ∧ (v < lo ∨ hi < v) := by
  cases x with
  | missing => simp [outlierTest]
  | num v => simp [outlierTest]
  | str s => simp [outlierTest]

/-- C3: whenever detection succeeds with defined fences, a row index is
in the outlier subset iff it is in range and its cell in the chosen
column holds a numeric value strictly outside the fences; an index whose
cell is missing is never selected, the outlier sub-table consists
exactly of the selected rows, and the reported count is the size of that
selection. -/
theorem detect_outlier_membership :
    ∀ (t : Table) (name : String) (c : Column) (r : OutlierReport) (lo hi : ℚ),
      t.col name = some c →
      detect t name = Except.ok r →
      r.lower = some lo → r.upper = some hi →
      r.count = (outlierKeep c (some lo) (some hi)).length ∧
      r.outliers = t.filterRows (outlierKeep c (some lo) (some hi)) ∧
      (∀ i : ℕ, i ∈ outlierKeep c (some lo) (some hi) ↔
        i < c.cells.length ∧
          ∃ v : ℚ, c.cells.getD i Cell.missing = Cell.num v ∧ (v < lo ∨ hi < v)) ∧
      (∀ i : ℕ, (c.cells.getD i Cell.missing).isMissing = true →
        i ∉ outlierKeep c (some lo) (some hi)) := by
  intro t name c r lo hi hcol hdet hlo hhi
  simp only [detect, hcol] at hdet
  by_cases hnum : c.isNumeric
  · simp only [hnum, if_true, Except.ok.injEq] at hdet
    subst hdet
    simp only [OutlierReport.lower] at hlo
    simp only [OutlierReport.upper] at hhi
    rw [hlo, hhi]
    refine ⟨rfl, rfl, ?_, ?_⟩
    · intro i
      simp only [outlierKeep, List.mem_filter, List.mem_range, outlierTest_iff]
    · intro i hmiss hmem
      simp only [outlierKeep, List.mem_filter, List.mem_range, outlierTest_iff] at hmem
      obtain ⟨-, v, hv, -⟩ := hmem
      rw [hv] at hmiss
      simp [Cell.isMissing] at hmiss
  · simp [hnum] at hdet

/-- Witness for C3 at the column b = [1, 2, 3, 4, 100, missing] with
fences -1 and 7: row 4 (value 100) is selected, the missing row 5 is
not, and the count is 1. -/
theorem detect_outlier_membership_witness :
    4 ∈ outlierKeep exMissCol (some (-1)) (some 7) ∧
    5 ∉ outlierKeep exMissCol (some (-1)) (some 7) ∧
    (outlierKeep exMissCol (some (-1)) (some 7)).length = 1 := by
  have h1 : quantile [1, 2, 3, 4, 100] (1/4) = some 2 := by
    norm_num [quantile, List.insertionSort, List.orderedInsert,
      List.getD, List.getElem?_cons_succ, List.getElem?_cons_zero]
    try simp only [Int.reduceToNat]
    try norm_num
  have h3 : quantile [1, 2, 3, 4, 100] (3/4) = some 4 := by
    norm_num [quantile, List.insertionSort, List.orderedInsert,
      List.getD, List.getElem?_cons_succ, List.getElem?_cons_zero]
    try simp only [Int.reduceToNat]
    try norm_num
  have hb : iqrBounds [1, 2, 3, 4, 100] = (some (-1), some 7) := by
    rw [iqrBounds, h1, h3]; norm_num
  have hv : exMissCol.vals = [1, 2, 3, 4, 100] := by
    norm_num [exMissCol, Column.vals, Cell.numVal, List.filterMap_cons, List.filterMap_nil]
  have hd : detect exMissTable "b" =
      Except.ok ⟨some (-1), some 7,
        exMissTable.filterRows (outlierKeep exMissCol (some (-1)) (some 7)),
        (outlierKeep exMissCol (some (-1)) (some 7)).length⟩ := by
    have hcol : exMissTable.col "b" = some exMissCol := rfl
    have hbv : iqrBounds exMissCol.vals = (some (-1), some 7) := by rw [hv]; exact hb
    simp only [detect, hcol, hbv]
    have hnum : exMissCol.isNumeric = true := rfl
    simp [hnum]
  have h := detect_outlier_membership exMissTable "b" exMissCol _ (-1) 7 rfl hd rfl rfl
  refine ⟨(h.2.2.1 4).mpr ⟨by norm_num [exMissCol], 100, rfl, by norm_num⟩,
    h.2.2.2 5 rfl, ?_⟩
  norm_num [outlierKeep, exMissCol, outlierTest, List.range_succ,
    List.getD, List.getElem?_cons_succ, List.getElem?_cons_zero]

/-- C9: asking outlier detection for a column that exists but is not
numeric is refused with InvalidColumnKind, and no report is produced. -/
theorem detect_non_numeric_error :
    ∀ (t : Table) (name : String) (c : Column),
      t.col name = some c → c.isNumeric = false →
      detect t name = Except.error AnalysisError.invalidColumnKind := by
  intro t name c hcol hnum
  simp [detect, hcol, hnum]

/-- Witness for C9: the categorical column c is refused. -/
theorem detect_non_numeric_error_witness :
    detect ⟨[exCatCol]⟩ "c" = Except.error AnalysisError.invalidColumnKind :=
  detect_non_numeric_error ⟨[exCatCol]⟩ "c" exCatCol rfl rfl

/-- C8: the Clean and Export page never touches the loaded table: the
session table it keeps is the input itself, with every column and the
row count intact, while the cleaned result is computed separately. -/
theorem clean_preserves_input :
    ∀ (t : Table) (s : CleaningStrategy),
      (applyCleaningPage t s).1 = t ∧
      (applyCleaningPage t s).1.cols = t.cols ∧
      (applyCleaningPage t s).1.nrows = t.nrows ∧
      (applyCleaningPage t s).2 = clean t s := by
  intro t s
  exact ⟨rfl, rfl, rfl, rfl⟩

/-- Reading every position of a list through getD reproduces the
list. -/
theorem getD_range_map {α : Type} (l : List α) (d : α) :
    (List.range l.length).map (fun i => l.getD i d) = l := by
  apply List.ext_getElem
  · simp
  · intro i h1 h2
    simp [List.getD_eq_getElem l d h2, List.getElem?_eq_getElem h2]

/-- A row has a null exactly when some column is missing there. -/
theorem rowHasNull_iff (t : Table) (i : ℕ) :
    t.rowHasNull i = true ↔
      ∃ c ∈ t.cols, (c.cells.getD i Cell.missing).isMissing = true := by
  simp [Table.rowHasNull, List.any_eq_true]

/-- No row of the table produced by dropRows still has a null. -/
theorem dropRows_no_null (t : Table) (j : ℕ)
    (hj : j < ((List.range t.nrows).filter fun i => !t.rowHasNull i).length) :
    (dropRows t).rowHasNull j = false := by
  set K := (List.range t.nrows).filter fun i => !t.rowHasNull i with hK
  have hKmem : K[j] ∈ K := List.getElem_mem hj
  have hKrow : t.rowHasNull K[j] = false := by
    have := (List.mem_filter.mp hKmem).2
    simpa using this
  have hall : ∀ c ∈ t.cols, (c.cells.getD K[j] Cell.missing).isMissing = false := by
    intro c hc
    by_contra hcon
    have : t.rowHasNull K[j] = true :=
      (rowHasNull_iff t K[j]).mpr ⟨c, hc, by simpa using hcon⟩
    rw [this] at hKrow; exact Bool.true_eq_false.mp hKrow
  rw [Bool.eq_false_iff]
  intro htrue
  obtain ⟨c', hc', hmiss⟩ := (rowHasNull_iff _ _).mp htrue
  have hc'' : c' ∈ (t.cols.map fun c =>
      Column.mk c.name (K.map fun i => c.cells.getD i Cell.missing)) := hc'
  obtain ⟨c, hc, hcF⟩ := List.mem_map.mp hc''
  subst hcF
  have hgd : ((K.map fun i => c.cells.getD i Cell.missing).getD j Cell.missing)
      = c.cells.getD K[j] Cell.missing := by
    rw [List.getD_eq_getElem _ _ (by simpa using hj)]
    simp
  rw [hgd] at hmiss
  rw [hall c hc] at hmiss
  exact Bool.false_ne_true hmiss

/-- Selecting the full row range of a table whose columns all have that
length is the identity. -/
theorem filterRows_range (t : Table) (n : ℕ) (h : ∀ c ∈ t.cols, c.cells.length = n) :
    t.filterRows (List.range n) = t := by
  obtain ⟨cols⟩ := t
  simp only [Table.filterRows, Table.mk.injEq]
  have : ∀ c ∈ cols,
      (Column.mk c.name ((List.range n).map fun i => c.cells.getD i Cell.missing)) = c := by
    intro c hc
    have hn := h c hc
    rw [← hn]
    cases c with
    | mk nm cl => exact congrArg (Column.mk nm) (getD_range_map cl Cell.missing)
  rw [List.map_congr_left this]
  exact List.map_id' cols

/-- dropRows is idempotent: its output has no null row left, so a second
pass keeps every row. -/
theorem dropRows_idempotent (t : Table) : dropRows (dropRows t) = dropRows t := by
  obtain ⟨cols⟩ := t
  cases cols with
  | nil => rfl
  | cons c0 cs =>
    set T : Table := Table.mk (c0 :: cs) with hT
    set K := (List.range T.nrows).filter (fun i => !T.rowHasNull i) with hK
    have hdrop : dropRows T = T.filterRows K := rfl
    have hlen : ∀ c ∈ (dropRows T).cols, c.cells.length = K.length := by
      intro c hc
      rw [hdrop] at hc
      obtain ⟨c₁, hc₁, rfl⟩ := List.mem_map.mp hc
      simp
    have hnrows : (dropRows T).nrows = K.length := by
      rw [hdrop, hT]
      simp [Table.filterRows, Table.nrows]
    have hfilter : (List.range (dropRows T).nrows).filter
        (fun j => !(dropRows T).rowHasNull j) = List.range K.length := by
      rw [hnrows]
      apply List.filter_eq_self.mpr
      intro j hj
      rw [List.mem_range] at hj
      have hnn := dropRows_no_null T j hj
      simp [hnn]
    have hstep : dropRows (dropRows T) =
        (dropRows T).filterRows ((List.range (dropRows T).nrows).filter
          (fun i => !(dropRows T).rowHasNull i)) := rfl
    rw [hstep, hfilter]
    exact filterRows_range _ _ hlen

/-- dropCols is idempotent: surviving columns have no null to act on
again. -/
theorem dropCols_idempotent (t : Table) : dropCols (dropCols t) = dropCols t := by
  simp only [dropCols, Table.mk.injEq]
  apply List.filter_eq_self.mpr
  intro c hc
  exact (List.mem_filter.mp hc).2

/-- C7: cleaning with DropRowsWithNulls or DropColumnsWithNulls is
idempotent on every table. -/
theorem clean_drop_idempotent :
    ∀ (t : Table),
      clean (clean t CleaningStrategy.dropRowsWithNulls) CleaningStrategy.dropRowsWithNulls
        = clean t CleaningStrategy.dropRowsWithNulls ∧
      clean (clean t CleaningStrategy.dropColumnsWithNulls) CleaningStrategy.dropColumnsWithNulls
        = clean t CleaningStrategy.dropColumnsWithNulls := by
  intro t
  exact ⟨dropRows_idempotent t, dropCols_idempotent t⟩

/-- C4: trend analysis averages the defined consecutive differences of
the column in row order (undefined differences at missing values are
excluded from the mean, not counted as zero) and classifies Increasing
for a positive mean, Decreasing for a negative one, Flat for a zero or
undefined mean; the column [1, 2, missing] has mean difference 1 (not
1/2), and the column z = [5, 3, 1] is classified Decreasing. -/
theorem trend_mean_classification :
    (∀ (t : Table) (name : String) (c : Column),
        t.col name = some c → c.isNumeric = true →
        (listMean (definedDiffs c.cells) = none →
            analyzeTrend t name = Except.ok TrendVerdict.flat) ∧
        (∀ m : ℚ, listMean (definedDiffs c.cells) = some m →
            (0 < m → analyzeTrend t name = Except.ok TrendVerdict.increasing) ∧
            (m < 0 → analyzeTrend t name = Except.ok TrendVerdict.decreasing) ∧
            (m = 0 → analyzeTrend t name = Except.ok TrendVerdict.flat))) ∧
    listMean (definedDiffs [Cell.num 1, Cell.num 2, Cell.missing]) = some 1 ∧
    analyzeTrend exZTable "z" = Except.ok TrendVerdict.decreasing := by
  refine ⟨?_, ?_, ?_⟩
  · intro t name c hcol hnum
    have hrun : analyzeTrend t name = Except.ok (trendOfCells c.cells) := by
      simp [analyzeTrend, hcol, hnum]
    constructor
    · intro hm
      rw [hrun, trendOfCells, hm]
    · intro m hm
      refine ⟨?_, ?_, ?_⟩
      · intro hpos
        rw [hrun, trendOfCells, hm]
        simp [hpos]
      · intro hneg
        rw [hrun, trendOfCells, hm]
        simp [hneg, not_lt_of_lt hneg, asymm hneg]
      · intro hzero
        rw [hrun, trendOfCells, hm]
        simp [hzero]
  · norm_num [definedDiffs, diffs, Cell.numVal, listMean,
      List.filterMap_cons, List.filterMap_nil]
  · have hdd : definedDiffs exZCol.cells = [-2, -2] := by
      norm_num [exZCol, definedDiffs, diffs, Cell.numVal,
        List.filterMap_cons, List.filterMap_nil]
    have hm : listMean (definedDiffs exZCol.cells) = some (-2) := by
      rw [hdd]; norm_num [listMean]
    have hrun : analyzeTrend exZTable "z" = Except.ok (trendOfCells exZCol.cells) := rfl
    rw [hrun, trendOfCells, hm]
    norm_num

/-- Witness for C4 at the column z = [5, 3, 1]: the mean difference -2
is negative, so the verdict is Decreasing. -/
theorem trend_mean_classification_witness :
    analyzeTrend exZTable "z" = Except.ok TrendVerdict.decreasing := by
  have hm : listMean (definedDiffs exZCol.cells) = some (-2) := by
    norm_num [exZCol, definedDiffs, diffs, Cell.numVal, listMean,
      List.filterMap_cons, List.filterMap_nil]
  exact ((trend_mean_classification.1 exZTable "z" exZCol rfl rfl).2 (-2) hm).2.1 (by norm_num)

/-- The defined differences of an all-numeric cell list are the pairwise
differences of the value list. -/
theorem definedDiffs_map_num (xs : List ℚ) :
    definedDiffs (xs.map Cell.num) = List.zipWith (fun b a => b - a) xs.tail xs := by
  induction xs with
  | nil => rfl
  | cons x ys ih =>
    cases ys with
    | nil => rfl
    | cons y zs =>
      simp only [List.map_cons, definedDiffs, diffs, Cell.numVal, List.filterMap_cons,
        List.zipWith_cons_cons, List.tail_cons] at ih ⊢
      rw [ih]
      rfl

/-- Telescoping: the pairwise differences of a list sum to last minus
first. -/
theorem zipWith_sub_sum (xs : List ℚ) :
    (List.zipWith (fun b a => b - a) xs.tail xs).sum = xs.getLastD 0 - xs.headD 0 := by
  induction xs with
  | nil => simp
  | cons x ys ih =>
    cases ys with
    | nil => simp
    | cons y zs =>
      simp only [List.tail_cons, List.zipWith_cons_cons, List.sum_cons] at ih ⊢
      rw [ih]
      have hlast : (x :: y :: zs).getLastD 0 = (y :: zs).getLastD 0 := by
        simp [List.getLastD_eq_getLast?]
      rw [hlast]
      simp only [List.headD_cons]
      ring

/-- On a nonempty list the mean is defined and is sum over length. -/
theorem listMean_ne_nil (l : List ℚ) (h : l ≠ []) :
    listMean l = some (l.sum / (l.length : ℚ)) := by
  cases l with
  | nil => exact absurd rfl h
  | cons a as => rfl

/-- A column holding only numeric values is numeric. -/
theorem isNumeric_map_num (c : Column) (xs : List ℚ) (h : c.cells = xs.map Cell.num) :
    c.isNumeric = true := by
  rw [Column.isNumeric, h]
  apply List.all_eq_true.mpr
  intro x hx
  obtain ⟨q, hq, rfl⟩ := List.mem_map.mp hx
  rfl

/-- C10: on a numeric column with no missing value and at least two
rows, the mean consecutive difference telescopes to
(last - first)/(n - 1), so the verdict is decided by the endpoints
alone: Increasing iff last > first, Decreasing iff last < first, Flat
iff they are equal. -/
theorem trend_depends_on_endpoints :
    ∀ (t : Table) (name : String) (c : Column) (xs : List ℚ),
      t.col name = some c → c.cells = xs.map Cell.num → 2 ≤ xs.length →
      listMean (definedDiffs c.cells)
          = some ((xs.getLastD 0 - xs.headD 0) / ((xs.length : ℚ) - 1)) ∧
      (analyzeTrend t name = Except.ok TrendVerdict.increasing ↔ xs.headD 0 < xs.getLastD 0) ∧
      (analyzeTrend t name = Except.ok TrendVerdict.decreasing ↔ xs.getLastD 0 < xs.headD 0) ∧
      (analyzeTrend t name = Except.ok TrendVerdict.flat ↔ xs.headD 0 = xs.getLastD 0) := by
  intro t name c xs hcol hcells hlen2
  have hnum := isNumeric_map_num c xs hcells
  have hrun : analyzeTrend t name = Except.ok (trendOfCells c.cells) := by
    simp [analyzeTrend, hcol, hnum]
  have hdlen : (List.zipWith (fun b a => b - a) xs.tail xs).length = xs.length - 1 := by
    rw [List.length_zipWith, List.length_tail]
    exact min_eq_left (Nat.sub_le _ _)
  have hne : List.zipWith (fun b a => b - a) xs.tail xs ≠ [] := by
    intro hnil
    rw [hnil] at hdlen
    simp at hdlen
    omega
  have hcast : (((xs.length - 1 : ℕ)) : ℚ) = (xs.length : ℚ) - 1 := by
    have : (1:ℕ) ≤ xs.length := le_trans (by norm_num) hlen2
    push_cast [this]
    ring
  set F := xs.headD 0 with hF
  set L := xs.getLastD 0 with hL
  set M := (L - F) / ((xs.length : ℚ) - 1) with hM
  have hm : listMean (definedDiffs c.cells) = some M := by
    rw [hcells, definedDiffs_map_num, listMean_ne_nil _ hne, zipWith_sub_sum, hdlen, hcast]
  have hd : (0:ℚ) < (xs.length : ℚ) - 1 := by
    have : (2:ℚ) ≤ (xs.length : ℚ) := by exact_mod_cast hlen2
    linarith
  have hMpos : 0 < M ↔ F < L := by
    rw [hM, lt_div_iff₀ hd, zero_mul, sub_pos]
  have hMneg : M < 0 ↔ L < F := by
    rw [hM, div_lt_iff₀ hd, zero_mul, sub_neg]
  have hMzero : M = 0 ↔ L = F := by
    rw [hM, div_eq_zero_iff]
    constructor
    · rintro (h | h)
      · exact sub_eq_zero.mp h
      · exact absurd h (ne_of_gt hd)
    · intro h
      exact Or.inl (sub_eq_zero.mpr h)
  refine ⟨hm, ?_, ?_, ?_⟩ <;> rw [hrun, trendOfCells, hm]
  · rcases lt_trichotomy F L with hlt | heq | hgt
    · simp [hMpos.mpr hlt, hlt]
    · have h0 : ¬ 0 < M := by rw [hMpos, heq]; exact lt_irrefl L
      have h1 : ¬ M < 0 := by rw [hMneg, heq]; exact lt_irrefl L
      simp [h0, h1, heq]
    · have h0 : ¬ 0 < M := by rw [hMpos]; exact asymm hgt
      simp [h0, hMneg.mpr hgt, asymm hgt]
  · rcases lt_trichotomy F L with hlt | heq | hgt
    · have h1 : ¬ M < 0 := by rw [hMneg]; exact asymm hlt
      simp [hMpos.mpr hlt, asymm hlt]
    · have h0 : ¬ 0 < M := by rw [hMpos, heq]; exact lt_irrefl L
      have h1 : ¬ M < 0 := by rw [hMneg, heq]; exact lt_irrefl L
      simp [h0, h1, heq]
    · have h0 : ¬ 0 < M := by rw [hMpos]; exact asymm hgt
      simp [h0, hMneg.mpr hgt, hgt]
  · rcases lt_trichotomy F L with hlt | heq | hgt
    · simp [hMpos.mpr hlt, ne_of_lt hlt]
    · have h0 : ¬ 0 < M := by rw [hMpos, heq]; exact lt_irrefl L
      have h1 : ¬ M < 0 := by rw [hMneg, heq]; exact lt_irrefl L
      simp [h0, h1, heq]
    · have h0 : ¬ 0 < M := by rw [hMpos]; exact asymm hgt
      simp [h0, hMneg.mpr hgt, ne_of_gt hgt]

/-- Witness for C10 at the non-monotone column w = [1, 5, 2, 9]: the
endpoints 1 < 9 make the verdict Increasing. -/
theorem trend_depends_on_endpoints_witness :
    analyzeTrend exWTable "w" = Except.ok TrendVerdict.increasing :=
  ((trend_depends_on_endpoints exWTable "w" exWCol [1, 5, 2, 9] rfl rfl
      (by norm_num)).2.1).mpr (by simp)

/-- C5: the fill-with-mean strategy leaves non-numeric columns exactly
as they were (their missing values included), and in each numeric column
replaces precisely the missing cells by the column mean over the
non-missing values, keeping name, length and all other cells; on the
column a = [2, missing, 4] next to a categorical column the result is
[2, 3, 4] with the categorical column untouched. -/
theorem fill_with_mean_spec :
    (∀ (t : Table) (i : ℕ) (c : Column), t.cols[i]? = some c →
        (c.isNumeric = false → (clean t CleaningStrategy.fillWithMean).cols[i]? = some c) ∧
        (c.isNumeric = true →
          ∃ c', (clean t CleaningStrategy.fillWithMean).cols[i]? = some c' ∧
            c'.name = c.name ∧ c'.cells.length = c.cells.length ∧
            ∀ (j : ℕ) (x : Cell), c.cells[j]? = some x →
              c'.cells[j]? = some (match x, listMean c.vals with
                | Cell.missing, some m => Cell.num m
                | _, _ => x))) ∧
    clean exMixTable CleaningStrategy.fillWithMean =
      Table.mk [⟨"a", [Cell.num 2, Cell.num 3, Cell.num 4]⟩, exCatCol] := by
  constructor
  · intro t i c hc
    have hmap : (clean t CleaningStrategy.fillWithMean).cols[i]?
        = some (if c.isNumeric then fillColumnWith (listMean c.vals) c else c) := by
      simp only [clean, fillMeanTable, List.getElem?_map, hc, Option.map_some']
    constructor
    · intro hnum
      rw [hmap, if_neg (by simp [hnum])]
    · intro hnum
      refine ⟨fillColumnWith (listMean c.vals) c, by rw [hmap, if_pos hnum], rfl, by
        simp [fillColumnWith], ?_⟩
      intro j x hx
      simp only [fillColumnWith, List.getElem?_map, hx, Option.map_some']
  · have hmean : listMean exGapCol.vals = some 3 := by
      norm_num [exGapCol, Column.vals, Cell.numVal, List.filterMap_cons, List.filterMap_nil,
        listMean]
    have hnumg : exGapCol.isNumeric = true := rfl
    have hnumc : exCatCol.isNumeric = false := rfl
    simp only [clean, fillMeanTable, exMixTable, List.map_cons, List.map_nil,
      hnumg, hnumc, if_true, Bool.false_eq_true, if_false, hmean, fillColumnWith]
    simp [exGapCol]

/-- Witness for C5: the categorical column of the mixed table comes back
unchanged from fill-with-mean. -/
theorem fill_with_mean_spec_witness :
    (clean exMixTable CleaningStrategy.fillWithMean).cols[1]? = some exCatCol :=
  (fill_with_mean_spec.1 exMixTable 1 exCatCol rfl).1 rfl

/-- Both components of a pairwise complete observation are non-missing
values of their respective columns. -/
theorem pairedVals_mem (as bs : List Cell) (p : ℚ × ℚ) (hp : p ∈ pairedVals as bs) :
    p.1 ∈ as.filterMap Cell.numVal ∧ p.2 ∈ bs.filterMap Cell.numVal := by
  rw [pairedVals, List.mem_filterMap] at hp
  obtain ⟨pr, hpr, hmatch⟩ := hp
  have hz := List.of_mem_zip hpr
  rcases h1 : pr.1.numVal with _ | x
  · rw [h1] at hmatch
    cases h2 : pr.2.numVal <;> rw [h2] at hmatch <;> simp at hmatch
  · rcases h2 : pr.2.numVal with _ | y
    · rw [h1, h2] at hmatch
      simp at hmatch
    · rw [h1, h2] at hmatch
      simp only [Option.some.injEq] at hmatch
      subst hmatch
      exact ⟨List.mem_filterMap.mpr ⟨pr.1, hz.1, h1⟩,
        List.mem_filterMap.mpr ⟨pr.2, hz.2, h2⟩⟩

/-- A nonempty constant list has zero sum of squared deviations from its
mean. -/
theorem sum_sq_dev_zero (l : List ℚ) (hl : l ≠ [])
    (hconst : ∀ x ∈ l, ∀ y ∈ l, x = y) :
    (l.map fun z => (z - l.sum / (l.length : ℚ)) ^ 2).sum = 0 := by
  cases l with
  | nil => exact absurd rfl hl
  | cons a as =>
    have hall : ∀ z ∈ a :: as, z = a :=
      fun z hz => hconst z hz a (List.mem_cons_self a as)
    have hsum : (a :: as).sum = ((a :: as).length : ℚ) * a := by
      rw [List.sum_eq_card_nsmul (a :: as) a hall, nsmul_eq_mul]
    have hlen : ((a :: as).length : ℚ) ≠ 0 := by
      rw [List.length_cons]
      push_cast
      positivity
    have hmean : (a :: as).sum / ((a :: as).length : ℚ) = a := by
      rw [hsum]
      exact mul_div_cancel_left₀ a hlen
    apply List.sum_eq_zero
    intro y hy
    obtain ⟨z, hz, rfl⟩ := List.mem_map.mp hy
    rw [hmean, hall z hz, sub_self]
    ring

/-- C6: a numeric column that is constant over its available rows (zero
variance) has an undefined NaN-equivalent correlation with every numeric
column of the table, itself included, in both orders; the computation is
total and never yields 0 for such a pair. -/
theorem corr_zero_variance_undefined :
    ∀ (t : Table) (ca : Column), ca ∈ t.numericCols →
      (∀ x ∈ ca.vals, ∀ y ∈ ca.vals, x = y) →
      ∀ cb ∈ t.numericCols, corrPair ca cb = none ∧ corrPair cb ca = none := by
  intro t ca hca hconst cb hcb
  constructor
  · rw [corrPair]
    by_cases hps : pairedVals ca.cells cb.cells = []
    · simp [hps]
    · rw [if_neg hps]
      have hx : (pairedVals ca.cells cb.cells).map Prod.fst ≠ [] := by
        simpa using hps
      have hcx : ∀ x ∈ (pairedVals ca.cells cb.cells).map Prod.fst,
          ∀ y ∈ (pairedVals ca.cells cb.cells).map Prod.fst, x = y := by
        intro x hx' y hy'
        obtain ⟨px, hpx, rfl⟩ := List.mem_map.mp hx'
        obtain ⟨py, hpy, rfl⟩ := List.mem_map.mp hy'
        exact hconst _ (pairedVals_mem _ _ _ hpx).1 _ (pairedVals_mem _ _ _ hpy).1
      have hsxx : ((pairedVals ca.cells cb.cells).map fun p =>
          (p.1 - ((pairedVals ca.cells cb.cells).map Prod.fst).sum /
            ((pairedVals ca.cells cb.cells).length : ℚ)) ^ 2).sum = 0 := by
        have := sum_sq_dev_zero _ hx hcx
        rw [List.length_map] at this
        rw [← this, List.map_map]
        rfl
      rw [if_pos (Or.inl hsxx)]
  · rw [corrPair]
    by_cases hps : pairedVals cb.cells ca.cells = []
    · simp [hps]
    · rw [if_neg hps]
      have hx : (pairedVals cb.cells ca.cells).map Prod.snd ≠ [] := by
        simpa using hps
      have hcx : ∀ x ∈ (pairedVals cb.cells ca.cells).map Prod.snd,
          ∀ y ∈ (pairedVals cb.cells ca.cells).map Prod.snd, x = y := by
        intro x hx' y hy'
        obtain ⟨px, hpx, rfl⟩ := List.mem_map.mp hx'
        obtain ⟨py, hpy, rfl⟩ := List.mem_map.mp hy'
        exact hconst _ (pairedVals_mem _ _ _ hpx).2 _ (pairedVals_mem _ _ _ hpy).2
      have hsyy : ((pairedVals cb.cells ca.cells).map fun p =>
          (p.2 - ((pairedVals cb.cells ca.cells).map Prod.snd).sum /
            ((pairedVals cb.cells ca.cells).length : ℚ)) ^ 2).sum = 0 := by
        have := sum_sq_dev_zero _ hx hcx
        rw [List.length_map] at this
        rw [← this, List.map_map]
        rfl
      rw [if_pos (Or.inr hsyy)]

/-- Witness for C6 at the constant column k = [2, 2, missing] of the
two-column table: its correlation with itself and with m is undefined in
both orders. -/
theorem corr_zero_variance_undefined_witness :
    corrPair exKCol exKCol = none ∧ corrPair exKCol exMCol = none ∧
    corrPair exMCol exKCol = none := by
  have hmemk : exKCol ∈ exCorrTable.numericCols := by
    simp [exCorrTable, Table.numericCols, List.filter, exKCol, exMCol, Column.isNumeric]
  have hmemm : exMCol ∈ exCorrTable.numericCols := by
    simp [exCorrTable, Table.numericCols, List.filter, exKCol, exMCol, Column.isNumeric]
  have hconst : ∀ x ∈ exKCol.vals, ∀ y ∈ exKCol.vals, x = y := by
    intro x hx y hy
    simp [exKCol, Column.vals, Cell.numVal, List.filterMap_cons, List.filterMap_nil] at hx hy
    rw [hx, hy]
  have h := corr_zero_variance_undefined exCorrTable exKCol hmemk hconst
  exact ⟨(h exKCol hmemk).1, (h exMCol hmemm).1, (h exMCol hmemm).2⟩

end DataTool
